import Mathlib

/-!
Verification of the call-data decoding utilities in `src/utils.py`.

The embedding models Python strings as `List Char` and Python's fallible
operations as `Option`-valued functions:

* `_split_top_level_args` — splits a Solidity type-list string at top-level
  commas (parenthesis-depth counting);
* `_extract_types_from_signature` — extracts the argument types from a
  function signature `name(type,...)`;
* `_postprocess_value` — recursively rewrites a decoded value into display
  form (checksummed addresses, hex-encoded bytes, keyed tuples, arrays);
* `parse_tx_input` — the orchestrator: selector slicing, hex-to-bytes
  conversion, registry lookup, ABI decode, and post-processing;
* `f_selector_dict` — the selector registry transcribed from the source.

External collaborators (the ABI decoder `eth_abi.decode` and the checksum
utility `eth_utils.to_checksum_address`) are passed as function parameters,
mirroring the spec's "external collaborator" boundary.  Python exceptions
are modelled as `none`/`Option`-failure.
-/

/-- Python `str.strip()`: drop whitespace from both ends of a character
list.  (Python strips all Unicode whitespace; the inputs handled here only
ever carry ASCII whitespace, covered by `Char.isWhitespace`.) -/
def trimChars (l : List Char) : List Char :=
  ((l.dropWhile Char.isWhitespace).reverse.dropWhile Char.isWhitespace).reverse

/-- Loop body of `_split_top_level_args` from `src/utils.py`: scan the
input left to right keeping a parenthesis-depth counter; `(` increments
and `)` decrements the depth (both are kept in the buffer); a comma at
depth 0 emits the stripped buffer; every other character accumulates.  At
the end of input the remaining non-empty buffer is emitted stripped. -/
def splitGo : List Char → List Char → Int → List (List Char)
  | [], buf, _ => if buf = [] then [] else [trimChars buf]
  | c :: cs, buf, depth =>
    if c = '(' then splitGo cs (buf ++ [c]) (depth + 1)
    else if c = ')' then splitGo cs (buf ++ [c]) (depth - 1)
    else if c = ',' ∧ depth = 0 then trimChars buf :: splitGo cs [] depth
    else splitGo cs (buf ++ [c]) depth

/-- `_split_top_level_args` from `src/utils.py`: split a Solidity type
list at top-level commas; empty elements are dropped by the final filter
(`[p for p in parts if p != ""]`). -/
def _split_top_level_args (l : List Char) : List (List Char) :=
  (splitGo l [] 0).filter (· ≠ [])

/-- Index of the first occurrence of a character, Python `str.find`
(`none` models Python's `-1`). -/
def firstIdxOf (c : Char) : List Char → Option Nat
  | [] => none
  | x :: xs => if x = c then some 0 else (firstIdxOf c xs).map (· + 1)

/-- Index of the last occurrence of a character, Python `str.rfind`
(`none` models Python's `-1`). -/
def lastIdxOf (c : Char) : List Char → Option Nat
  | [] => none
  | x :: xs =>
    match lastIdxOf c xs with
    | some i => some (i + 1)
    | none => if x = c then some 0 else none

/-- `_extract_types_from_signature` from `src/utils.py`: find the first
`(` and the last `)`; fail (Python `raise ValueError("Malformed
signature")`, modelled as `none`) when either is absent or the last `)`
precedes the first `(`; otherwise strip the substring strictly between
them and split it, returning `[]` when the stripped interior is empty. -/
def _extract_types_from_signature (sig : List Char) : Option (List (List Char)) :=
  match firstIdxOf '(' sig, lastIdxOf ')' sig with
  | some l, some r =>
    if r < l then none
    else if trimChars ((sig.take r).drop (l + 1)) = [] then some []
    else some (_split_top_level_args (trimChars ((sig.take r).drop (l + 1))))
  | _, _ => none

/-- Claim-side restatement of the extractor, written from the spec's
words for the refinement proof: take the substring strictly between the
first `(` and the last `)` (no stripping), return the empty list when
that substring is empty and the splitter's result on it otherwise. -/
def extractTypesSpec (sig : List Char) : Option (List (List Char)) :=
  match firstIdxOf '(' sig, lastIdxOf ')' sig with
  | some l, some r =>
    if r < l then none
    else if (sig.take r).drop (l + 1) = [] then some []
    else some (_split_top_level_args ((sig.take r).drop (l + 1)))
  | _, _ => none

/-- Type normalization in `_postprocess_value`: Python
`sol_type.replace(" ", "")`, i.e. delete every space character. -/
def normType (t : List Char) : List Char := t.filter (fun c => c ≠ ' ')

/-- Base type of an array type string: Python `t[:t.rfind('[')]` — cut at
the last `[`; when no `[` exists Python's `rfind` returns `-1` and the
slice `t[:-1]` drops just the final character. -/
def stripBase (t : List Char) : List Char :=
  match lastIdxOf '[' t with
  | some i => t.take i
  | none => t.take (t.length - 1)

/-- Interior of a tuple type string: Python `t[1:-1]`. -/
def tupleInner (t : List Char) : List Char := (t.drop 1).dropLast

/-- Decoded / rendered values.  `vseq` models Python tuples and lists
(ABI-decoded arrays and tuples), `vmap` the ordered dict produced for
rendered tuples, `vbytes` Python `bytes`, `vstr` Python `str`. -/
inductive Val : Type
  | vint : Int → Val
  | vbool : Bool → Val
  | vbytes : List Nat → Val
  | vstr : List Char → Val
  | vseq : List Val → Val
  | vmap : List (List Char × Val) → Val

/-- Lowercase hex digit table used by Python `bytes.hex()`. -/
def hexDig (n : Nat) : Char := "0123456789abcdef".data.getD n '0'

/-- Two lowercase hex digits of one byte, as in Python `bytes.hex()`. -/
def byteHex (b : Nat) : List Char := [hexDig (b / 16), hexDig (b % 16)]

/-- Python `'0x' + value.hex()`: `0x`-prefixed lowercase hex encoding. -/
def hexOfBytes (bs : List Nat) : List Char := '0' :: 'x' :: (bs.map byteHex).flatten

/-- Key `_i` of the rendered-tuple dict, Python `f"_{i}"`. -/
def mkTupleKey (i : Nat) : List Char := '_' :: (Nat.repr i).data

/-- Element list of a sequence value; any other value fails, the way
Python raises when iterating or indexing a non-sequence. -/
def Val.asSeq : Val → Option (List Val)
  | .vseq vs => some vs
  | _ => none

/-- Byte list of a bytes value; any other value fails, the way Python
raises on `value.hex()` for a non-bytes value. -/
def Val.asBytes : Val → Option (List Nat)
  | .vbytes bs => some bs
  | _ => none

theorem dropWhile_sublist_self (p : Char → Bool) (l : List Char) :
    List.Sublist (l.dropWhile p) l := by
  induction l with
  | nil => simp [List.dropWhile]
  | cons a t ih =>
    by_cases h : p a
    · simp [List.dropWhile, h]
      exact ih.trans (List.sublist_cons_self a t)
    · simp [List.dropWhile, h]

theorem trimChars_sublist (l : List Char) : List.Sublist (trimChars l) l := by
  unfold trimChars
  have h1 := dropWhile_sublist_self Char.isWhitespace (l.dropWhile Char.isWhitespace).reverse
  have h2 := h1.reverse
  simp at h2
  exact h2.trans (dropWhile_sublist_self Char.isWhitespace l)

theorem trimChars_length_le (l : List Char) : (trimChars l).length ≤ l.length :=
  (trimChars_sublist l).length_le

theorem normType_noSpace (t : List Char) : ∀ c ∈ normType t, c ≠ ' ' := by
  intro c hc
  simp [normType, List.mem_filter] at hc
  exact hc.2

theorem normType_of_noSpace {l : List Char} (h : ∀ c ∈ l, c ≠ ' ') : normType l = l := by
  apply List.filter_eq_self.2
  intro a ha; exact decide_eq_true (h a ha)

theorem splitGo_mem_length :
    ∀ (l buf : List Char) (d : Int) (p : List Char), p ∈ splitGo l buf d →
      p.length ≤ buf.length + l.length := by
  intro l
  induction l with
  | nil =>
    intro buf d p hp
    simp [splitGo] at hp
    rcases hp with ⟨-, rfl⟩
    simpa using trimChars_length_le buf
  | cons c cs ih =>
    intro buf d p hp
    simp only [splitGo] at hp
    by_cases h1 : c = '('
    · simp [h1] at hp
      have := ih (buf ++ [c]) (d+1) p (by simpa [h1] using hp)
      simp only [List.length_append, List.length_cons, List.length_nil] at this ⊢
      omega
    · by_cases h2 : c = ')'
      · simp [h1, h2] at hp
        have := ih (buf ++ [c]) (d-1) p (by simpa [h2] using hp)
        simp only [List.length_append, List.length_cons, List.length_nil] at this ⊢
        omega
      · by_cases h3 : c = ',' ∧ d = 0
        · simp [h1, h2, h3] at hp
          rcases hp with rfl | hp
          · have := trimChars_length_le buf
            simp only [List.length_cons]; omega
          · have := ih [] 0 p hp
            simp only [List.length_nil, List.length_cons] at this ⊢; omega
        · simp [h1, h2, h3] at hp
          have := ih (buf ++ [c]) d p hp
          simp only [List.length_append, List.length_cons, List.length_nil] at this ⊢
          omega

theorem split_mem_length {l p : List Char} (hp : p ∈ _split_top_level_args l) :
    p.length ≤ l.length := by
  have h := List.mem_of_mem_filter hp
  have := splitGo_mem_length l [] 0 p h
  simpa using this

theorem splitGo_mem_noSpace :
    ∀ (l buf : List Char) (d : Int) (p : List Char), p ∈ splitGo l buf d →
      (∀ c ∈ buf, c ≠ ' ') → (∀ c ∈ l, c ≠ ' ') → ∀ c ∈ p, c ≠ ' ' := by
  intro l
  induction l with
  | nil =>
    intro buf d p hp hbuf _ c hc
    simp [splitGo] at hp
    rcases hp with ⟨-, rfl⟩
    exact hbuf c ((trimChars_sublist buf).mem hc)
  | cons x xs ih =>
    intro buf d p hp hbuf hl c hc
    have hx : x ≠ ' ' := hl x (by simp)
    have hxs : ∀ a ∈ xs, a ≠ ' ' := fun a ha => hl a (by simp [ha])
    have hbufx : ∀ a ∈ buf ++ [x], a ≠ ' ' := by
      intro a ha; simp at ha
      rcases ha with ha | rfl
      · exact hbuf a ha
      · exact hx
    simp only [splitGo] at hp
    by_cases h1 : x = '('
    · exact ih (buf ++ [x]) (d+1) p (by simpa [h1] using hp) hbufx hxs c hc
    · by_cases h2 : x = ')'
      · exact ih (buf ++ [x]) (d-1) p (by simpa [h1, h2] using hp) hbufx hxs c hc
      · by_cases h3 : x = ',' ∧ d = 0
        · simp [h1, h2, h3] at hp
          rcases hp with rfl | hp
          · exact hbuf c ((trimChars_sublist buf).mem hc)
          · exact ih [] 0 p hp (by simp) hxs c hc
        · simp only [h1, h2, h3, if_neg, if_false] at hp
          exact ih (buf ++ [x]) d p (by simpa [h1, h2, h3] using hp) hbufx hxs c hc

theorem split_mem_noSpace {l p : List Char} (hp : p ∈ _split_top_level_args l)
    (hl : ∀ c ∈ l, c ≠ ' ') : ∀ c ∈ p, c ≠ ' ' :=
  splitGo_mem_noSpace l [] 0 p (List.mem_of_mem_filter hp) (by simp) hl

theorem lastIdxOf_lt_length {c : Char} :
    ∀ {l : List Char} {i : Nat}, lastIdxOf c l = some i → i < l.length := by
  intro l
  induction l with
  | nil => intro i h; simp [lastIdxOf] at h
  | cons x xs ih =>
    intro i h
    simp only [lastIdxOf] at h
    cases hx : lastIdxOf c xs with
    | some j =>
      rw [hx] at h
      injection h with h
      subst h
      have := ih hx
      simp; omega
    | none =>
      rw [hx] at h
      by_cases hc : x = c
      · simp [hc] at h; subst h; simp
      · simp [hc] at h

theorem stripBase_length_lt {l : List Char} (h : l ≠ []) :
    (stripBase l).length < l.length := by
  unfold stripBase
  cases hx : lastIdxOf '[' l with
  | some i =>
    have := lastIdxOf_lt_length hx
    simp [List.length_take]
    omega
  | none =>
    have : 0 < l.length := List.length_pos.2 h
    simp [List.length_take]
    omega

theorem stripBase_noSpace {l : List Char} (h : ∀ c ∈ l, c ≠ ' ') :
    ∀ c ∈ stripBase l, c ≠ ' ' := by
  intro c hc
  apply h
  unfold stripBase at hc
  cases hx : lastIdxOf '[' l with
  | some i => rw [hx] at hc; exact List.mem_of_mem_take hc
  | none => rw [hx] at hc; exact List.mem_of_mem_take hc

theorem tupleInner_noSpace {l : List Char} (h : ∀ c ∈ l, c ≠ ' ') :
    ∀ c ∈ tupleInner l, c ≠ ' ' := by
  intro c hc
  apply h
  unfold tupleInner at hc
  exact List.mem_of_mem_drop (List.mem_of_mem_dropLast hc)

theorem tupleInner_length (l : List Char) : (tupleInner l).length = l.length - 2 := by
  simp [tupleInner]; omega

theorem two_le_length_of_head_getLast {l : List Char}
    (h1 : l.head? = some '(') (h2 : l.getLast? = some ')') : 2 ≤ l.length := by
  match l with
  | [] => simp at h1
  | [a] =>
    simp at h1 h2
    subst h1
    exact absurd h2 (by decide)
  | a :: b :: t => simp

/-- `_postprocess_value` from `src/utils.py`.  `cs` abstracts the
external `eth_utils.to_checksum_address` collaborator.  Dispatch on the
space-normalized type string: a trailing `]` means Array (strip the
rightmost `[...]`, render elementwise); an outer `(`…`)` pair means Tuple
(split the interior, render member `i` against `value[i]` for `i` below
the member count — Python's `range(len(subtypes))` — into keys `_0`,
`_1`, …; too few value elements is an index error, i.e. `none`);
otherwise Elementary: `address` is checksummed, a `bytes`-prefixed type
is hex-encoded, and everything else passes through unchanged. -/
def _postprocess_value (cs : Val → List Char) (sol_type : List Char) (value : Val) :
    Option Val :=
  if h1 : (normType sol_type).getLast? = some ']' then
    value.asSeq.bind fun vs =>
      (vs.mapM fun w => _postprocess_value cs (stripBase (normType sol_type)) w).map .vseq
  else if h2 : (normType sol_type).head? = some '(' ∧
      (normType sol_type).getLast? = some ')' then
    let subtypes := _split_top_level_args (tupleInner (normType sol_type))
    if subtypes.length = 0 then some (.vmap [])
    else
      value.asSeq.bind fun vs =>
        if vs.length < subtypes.length then none
        else
          ((subtypes.zip vs).attach.mapM fun p =>
            _postprocess_value cs p.1.1 p.1.2).map
            (fun rs => .vmap (rs.enum.map fun q => (mkTupleKey q.1, q.2)))
  else if normType sol_type = "address".data then some (.vstr (cs value))
  else if "bytes".data.isPrefixOf (normType sol_type) ∧ normType sol_type ≠ "bytes".data then
    value.asBytes.map fun bs => .vstr (hexOfBytes bs)
  else if normType sol_type = "bytes".data then
    value.asBytes.map fun bs => .vstr (hexOfBytes bs)
  else some value
termination_by (normType sol_type).length
decreasing_by
  · have hne : normType sol_type ≠ [] := by
      intro h; rw [h] at h1; simp at h1
    have h3 : normType (stripBase (normType sol_type)) = stripBase (normType sol_type) :=
      normType_of_noSpace (stripBase_noSpace (normType_noSpace sol_type))
    rw [h3]
    exact stripBase_length_lt hne
  · have hmem : p.1.1 ∈ subtypes := (List.of_mem_zip p.2).1
    have hlen : p.1.1.length ≤ (tupleInner (normType sol_type)).length :=
      split_mem_length hmem
    have hns : ∀ c ∈ p.1.1, c ≠ ' ' :=
      split_mem_noSpace hmem (tupleInner_noSpace (normType_noSpace sol_type))
    rw [normType_of_noSpace hns]
    have h4 := tupleInner_length (normType sol_type)
    have h5 := two_le_length_of_head_getLast h2.1 h2.2
    omega

theorem mapM_attach_opt {α β : Type} (l : List α) (f : α → Option β) :
    (l.attach.mapM fun p => f p.1) = l.mapM f := by
  suffices h : ∀ (P : α → Prop) (l' : List {x // P x}), l'.map Subtype.val = l →
      (l'.mapM fun p => f p.1) = l.mapM f by
    exact h (· ∈ l) l.attach (List.attach_map_subtype_val l)
  intro P l'
  induction l' generalizing l with
  | nil => intro h; subst h; rfl
  | cons p t ih =>
    intro h
    subst h
    simp only [List.map_cons, List.mapM_cons, ih (t.map Subtype.val) rfl]

theorem pp_arr (cs : Val → List Char) (t : List Char) (v : Val)
    (h : (normType t).getLast? = some ']') :
    _postprocess_value cs t v =
      v.asSeq.bind fun vs =>
        (vs.mapM fun w => _postprocess_value cs (stripBase (normType t)) w).map .vseq := by
  rw [_postprocess_value]
  simp [h]

theorem pp_tuple (cs : Val → List Char) (t : List Char) (v : Val)
    (h1 : ¬ (normType t).getLast? = some ']')
    (h2 : (normType t).head? = some '(' ∧ (normType t).getLast? = some ')')
    (h3 : (_split_top_level_args (tupleInner (normType t))).length ≠ 0) :
    _postprocess_value cs t v =
      (v.asSeq.bind fun vs =>
        if vs.length < (_split_top_level_args (tupleInner (normType t))).length then none
        else (((_split_top_level_args (tupleInner (normType t))).zip vs).mapM fun p =>
               _postprocess_value cs p.1 p.2).map
             (fun rs => .vmap (rs.enum.map fun q => (mkTupleKey q.1, q.2)))) := by
  rw [_postprocess_value]
  rw [dif_neg h1, dif_pos h2, if_neg h3]
  congr 1
  funext vs
  by_cases h4 : vs.length < (_split_top_level_args (tupleInner (normType t))).length
  · rw [if_pos h4, if_pos h4]
  · rw [if_neg h4, if_neg h4]
    congr 1
    rw [mapM_attach_opt ((_split_top_level_args (tupleInner (normType t))).zip vs)
      (fun p => _postprocess_value cs p.1 p.2)]

theorem pp_tuple_empty (cs : Val → List Char) (t : List Char) (v : Val)
    (h1 : ¬ (normType t).getLast? = some ']')
    (h2 : (normType t).head? = some '(' ∧ (normType t).getLast? = some ')')
    (h3 : (_split_top_level_args (tupleInner (normType t))).length = 0) :
    _postprocess_value cs t v = some (.vmap []) := by
  rw [_postprocess_value]
  rw [dif_neg h1, dif_pos h2, if_pos h3]

theorem pp_elem_addr (cs : Val → List Char) (t : List Char) (v : Val)
    (h1 : ¬ (normType t).getLast? = some ']')
    (h2 : ¬ ((normType t).head? = some '(' ∧ (normType t).getLast? = some ')'))
    (h3 : normType t = "address".data) :
    _postprocess_value cs t v = some (.vstr (cs v)) := by
  rw [_postprocess_value]
  rw [dif_neg h1, dif_neg h2, if_pos h3]

theorem pp_elem_bytes (cs : Val → List Char) (t : List Char) (v : Val)
    (h1 : ¬ (normType t).getLast? = some ']')
    (h2 : ¬ ((normType t).head? = some '(' ∧ (normType t).getLast? = some ')'))
    (h3 : ¬ normType t = "address".data)
    (h4 : "bytes".data.isPrefixOf (normType t)) :
    _postprocess_value cs t v = v.asBytes.map fun bs => .vstr (hexOfBytes bs) := by
  rw [_postprocess_value]
  rw [dif_neg h1, dif_neg h2, if_neg h3]
  by_cases h5 : normType t = "bytes".data
  · rw [if_neg (by simp [h5]), if_pos h5]
  · rw [if_pos ⟨h4, h5⟩]

theorem pp_elem_other (cs : Val → List Char) (t : List Char) (v : Val)
    (h1 : ¬ (normType t).getLast? = some ']')
    (h2 : ¬ ((normType t).head? = some '(' ∧ (normType t).getLast? = some ')'))
    (h3 : ¬ normType t = "address".data)
    (h4 : ¬ "bytes".data.isPrefixOf (normType t)) :
    _postprocess_value cs t v = some v := by
  rw [_postprocess_value]
  have h5 : ¬ normType t = "bytes".data := by
    intro h; rw [h] at h4; exact h4 (by decide)
  rw [dif_neg h1, dif_neg h2, if_neg h3, if_neg (fun hc => h4 hc.1), if_neg h5]

/-- Value of one hexadecimal digit, accepting both cases, as Python
`bytes.fromhex` does. -/
def hexDigitVal (c : Char) : Option Nat :=
  if '0' ≤ c ∧ c ≤ '9' then some (c.toNat - 48)
  else if 'a' ≤ c ∧ c ≤ 'f' then some (c.toNat - 87)
  else if 'A' ≤ c ∧ c ≤ 'F' then some (c.toNat - 55)
  else none

/-- ASCII whitespace in the sense of CPython `Py_ISSPACE`, the
characters `bytes.fromhex` skips between byte pairs. -/
def isPySpace (c : Char) : Bool :=
  c = ' ' || c = '\t' || c = '\n' || c = '\r' || c = '\x0b' || c = '\x0c'

/-- Python `bytes.fromhex`: skip ASCII whitespace, then consume two hex
digits per byte — the second digit must follow immediately (whitespace
or end of input inside a pair, an odd count of digits, or any other
non-hex character raises `ValueError`, modelled as `none`). -/
def bytesFromHex : List Char → Option (List Nat)
  | [] => some []
  | c :: cs =>
    if isPySpace c then bytesFromHex cs
    else
      match hexDigitVal c with
      | none => none
      | some h =>
        match cs with
        | [] => none
        | c2 :: rest =>
          match hexDigitVal c2 with
          | none => none
          | some lo => (bytesFromHex rest).map (fun bs => (16 * h + lo) :: bs)

/-- Declarative form of the strings `bytes.fromhex` accepts: every
maximal whitespace-free run is an even-length string of hexadecimal
digits (so whitespace may separate byte pairs but never split one). -/
def isHexBody (l : List Char) : Bool :=
  (l.splitOnP isPySpace).all fun run =>
    decide (run.length % 2 = 0) && run.all fun c => (hexDigitVal c).isSome

/-- Plain even-length string of hexadecimal digits with no whitespace
allowance — the claim-side reading of "valid even-length hex string". -/
def isPlainHexString (l : List Char) : Bool :=
  decide (l.length % 2 = 0) && l.all (fun c => (hexDigitVal c).isSome)

/-- Selector-registry entry: `{'name': ..., 'signature': ...}`. -/
structure SelEntry : Type where
  name : List Char
  signature : List Char
deriving DecidableEq

/-- Result record of `parse_tx_input`: either the `known=False` record
`{selector, known: False, error}` or the full
`{selector, known: True, name, signature, arg_types, args_decoded}`. -/
inductive TxRecord : Type
  | unknown (selector : List Char) (error : List Char)
  | known (selector name signature : List Char)
      (arg_types : List (List Char)) (args_decoded : List Val)

/-- Selector field of a result record. -/
def TxRecord.selector : TxRecord → List Char
  | .unknown s _ => s
  | .known s _ _ _ _ => s

/-- Python `selectors.get(selector)` on the registry association list
(keys are distinct in the source dict). -/
def dictGet (sels : List (List Char × SelEntry)) (k : List Char) : Option SelEntry :=
  (sels.find? (fun e => e.1 == k)).map (·.2)

/-- Strip an optional `0x` prefix from the call-data, as
`parse_tx_input` does first. -/
def stripped0x (cd : List Char) : List Char :=
  if "0x".data.isPrefixOf cd then cd.drop 2 else cd

/-- `parse_tx_input` from `src/utils.py`.  `abi` abstracts the external
`eth_abi.decode` collaborator and `cs` the checksum utility.  Steps, in
source order: strip an optional `0x`; fail when fewer than 8 characters
remain; slice the selector (`'0x' + calldata_hex[:8]`, case preserved);
convert the remaining hex body to bytes (this can fail — and it happens
before the registry lookup); look the selector up, a miss returning the
structured `known=False` record; extract the signature's types; a
zero-argument function returns immediately; otherwise ABI-decode the
body and post-process each type/value pair. -/
def parse_tx_input (abi : List (List Char) → List Nat → Option (List Val))
    (cs : Val → List Char) (calldata_hex : List Char)
    (selectors : List (List Char × SelEntry)) : Option TxRecord :=
  let cd := stripped0x calldata_hex
  if cd.length < 8 then none
  else
    let selector := '0' :: 'x' :: cd.take 8
    match bytesFromHex (cd.drop 8) with
    | none => none
    | some body_bytes =>
      match dictGet selectors selector with
      | none => some (.unknown selector "Unknown function selector".data)
      | some entry =>
        match _extract_types_from_signature entry.signature with
        | none => none
        | some arg_types =>
          if arg_types = [] then
            some (.known selector entry.name entry.signature [] [])
          else
            match abi arg_types body_bytes with
            | none => none
            | some decoded =>
              match (arg_types.zip decoded).mapM
                  (fun p => _postprocess_value cs p.1 p.2) with
              | none => none
              | some pretty =>
                some (.known selector entry.name entry.signature arg_types pretty)

/-- Trivial stand-in for the external checksum collaborator, used to
instantiate closed statements. -/
def cs0 : Val → List Char := fun _ => []

/-- Stand-in ABI decoder that always fails. -/
def abi0 : List (List Char) → List Nat → Option (List Val) := fun _ _ => none

/-- Stand-in ABI decoder that always returns an empty value list. -/
def abi1 : List (List Char) → List Nat → Option (List Val) := fun _ _ => some []
def f_selector_dict : List (List Char × SelEntry) := [
  ("0x70a08231".data, ⟨"balanceOf".data, "balanceOf(address)".data⟩),
  ("0xa9059cbb".data, ⟨"transfer".data, "transfer(address,uint256)".data⟩),
  ("0x128acb08".data, ⟨"swap".data, "swap(address,bool,int256,uint160,bytes)".data⟩),
  ("0x23b872dd".data, ⟨"transferFrom".data, "transferFrom(address,address,uint256)".data⟩),
  ("0x48c89491".data, ⟨"unlock".data, "unlock(bytes)".data⟩),
  ("0x91dd7346".data, ⟨"unlockCallback".data, "unlockCallback(bytes)".data⟩),
  ("0xf3cd914c".data, ⟨"swap".data, "swap((address,address,uint24,int24,address),(bool,int256,uint160),bytes)".data⟩),
  ("0xd0c93a7c".data, ⟨"tickSpacing".data, "tickSpacing()".data⟩),
  ("0x3850c7bd".data, ⟨"slot0".data, "slot0()".data⟩),
  ("0xf135baaa".data, ⟨"exttload".data, "exttload(bytes32)".data⟩),
  ("0xfa461e33".data, ⟨"uniswapV3SwapCallback".data, "uniswapV3SwapCallback(int256,int256,bytes)".data⟩),
  ("0x0b0d9c09".data, ⟨"take".data, "take(address,address,uint256)".data⟩),
  ("0x11da60b4".data, ⟨"settle".data, "settle()".data⟩),
  ("0x1a686502".data, ⟨"liquidity".data, "liquidity()".data⟩),
  ("0x5339c296".data, ⟨"tickBitmap".data, "tickBitmap(int16)".data⟩),
  ("0xb88c9148".data, ⟨"getFee".data, "getFee(address)".data⟩),
  ("0x095ea7b3".data, ⟨"approve".data, "approve(address,uint256)".data⟩),
  ("0x0902f1ac".data, ⟨"getReserves".data, "getReserves()".data⟩),
  ("0xa5841194".data, ⟨"sync".data, "sync(address)".data⟩),
  ("0x2e1a7d4d".data, ⟨"withdraw".data, "withdraw(uint256)".data⟩),
  ("0xddca3f43".data, ⟨"fee".data, "fee()".data⟩),
  ("0xd0e30db0".data, ⟨"deposit".data, "deposit()".data⟩),
  ("0xfeaf968c".data, ⟨"latestRoundData".data, "latestRoundData()".data⟩),
  ("0x35458dcc".data, ⟨"getSwapFee".data, "getSwapFee(address)".data⟩),
  ("0x23a69e75".data, ⟨"pancakeV3SwapCallback".data, "pancakeV3SwapCallback(int256,int256,bytes)".data⟩),
  ("0x022c0d9f".data, ⟨"transfer_attention_tg_invmru_28108a2".data, "transfer_attention_tg_invmru_28108a2(bool,bool,uint256)".data⟩),
  ("0x883bdbfd".data, ⟨"observe".data, "observe(uint32[])".data⟩),
  ("0x72c98186".data, ⟨"onSwap".data, "onSwap((uint8,uint256,uint256[],uint256,uint256,address,bytes))".data⟩),
  ("0x36c78516".data, ⟨"transferFrom".data, "transferFrom(address,address,uint160,address)".data⟩),
  ("0x2bfb780c".data, ⟨"swap".data, "swap((uint8,address,address,address,uint256,uint256,bytes))".data⟩),
  ("0xd15e0053".data, ⟨"getReserveNormalizedIncome".data, "getReserveNormalizedIncome(address)".data⟩),
  ("0xf140a35a".data, ⟨"getAmountOut".data, "getAmountOut(uint256,address)".data⟩),
  ("0x13fb72c7".data, ⟨"executeBatchWithCallback".data, "executeBatchWithCallback((bytes,bytes)[],bytes)".data⟩),
  ("0x380dc1c2".data, ⟨"tickSpacingToFee".data, "tickSpacingToFee(int24)".data⟩),
  ("0xcefa7799".data, ⟨"poolImplementation".data, "poolImplementation()".data⟩),
  ("0x3593564c".data, ⟨"execute".data, "execute(bytes,bytes[],uint256)".data⟩),
  ("0x15afd409".data, ⟨"settle".data, "settle(address,uint256)".data⟩),
  ("0xae639329".data, ⟨"sendTo".data, "sendTo(address,address,uint256)".data⟩),
  ("0x1703e5f9".data, ⟨"isAlive".data, "isAlive(address)".data⟩),
  ("0xe5135ec6".data, ⟨"executeBatch".data, "executeBatch((bytes,bytes)[],bytes)".data⟩),
  ("0xb9a09fd5".data, ⟨"gauges".data, "gauges(address)".data⟩),
  ("0xa15ea89f".data, ⟨"getLatestPeriodInfo".data, "getLatestPeriodInfo(address)".data⟩),
  ("0x50d25bcd".data, ⟨"latestAnswer".data, "latestAnswer()".data⟩),
  ("0x679aefce".data, ⟨"getRate".data, "getRate()".data⟩),
  ("0xcc56b2c5".data, ⟨"getFee".data, "getFee(address,bool)".data⟩),
  ("0x5c60e39a".data, ⟨"market".data, "market(bytes32)".data⟩),
  ("0xb187bd26".data, ⟨"isPaused".data, "isPaused()".data⟩),
  ("0xf30dba93".data, ⟨"ticks".data, "ticks(int24)".data⟩),
  ("0x8c00bf6b".data, ⟨"borrowRateView".data, "borrowRateView((address,address,address,address,uint256),(uint128,uint128,uint128,uint128,uint128,uint128))".data⟩),
  ("0xe468baf0".data, ⟨"allWhitelistedTokens".data, "allWhitelistedTokens(uint256)".data⟩),
  ("0xdaf9c210".data, ⟨"whitelistedTokens".data, "whitelistedTokens(address)".data⟩),
  ("0x0a5ea466".data, ⟨"claimTokens".data, "claimTokens(address,address,address,uint256)".data⟩),
  ("0xee63c1e5".data, ⟨"swapUniV3".data, "swapUniV3()".data⟩),
  ("0x9d2c110c".data, ⟨"onSwap".data, "onSwap((uint8,address,address,uint256,bytes32,uint256,address,address,bytes),uint256,uint256)".data⟩),
  ("0x87517c45".data, ⟨"approve".data, "approve(address,address,uint160,uint48)".data⟩),
  ("0xe55186a1".data, ⟨"getUnit".data, "getUnit()".data⟩),
  ("0x0d335884".data, ⟨"executeWithCallback".data, "executeWithCallback((bytes,bytes),bytes)".data⟩),
  ("0x9dc29fac".data, ⟨"burn".data, "burn(address,uint256)".data⟩),
  ("0x61461954".data, ⟨"execute".data, "execute()".data⟩),
  ("0x0c49ccbe".data, ⟨"decreaseLiquidity".data, "decreaseLiquidity((uint256,uint128,uint256,uint256,uint256))".data⟩),
  ("0xf90c6906".data, ⟨"priceFeeds".data, "priceFeeds(address,address)".data⟩),
  ("0x64ee4b80".data, ⟨"gm".data, "gm(address,uint8)".data⟩),
  ("0x9d63848a".data, ⟨"tokens".data, "tokens()".data⟩),
  ("0x927da105".data, ⟨"allowance".data, "allowance(address,address,address)".data⟩)]

/-- Parts emitted by the splitter scan after the empty-string filter. -/
def splitParts (l buf : List Char) (d : Int) : List (List Char) :=
  (splitGo l buf d).filter (· ≠ [])

theorem split_eq_splitParts (l : List Char) :
    _split_top_level_args l = splitParts l [] 0 := rfl

theorem ws_not_special {c : Char} (h : c.isWhitespace = true) :
    c ≠ '(' ∧ c ≠ ')' ∧ c ≠ ',' := by
  simp [Char.isWhitespace] at h
  rcases h with ((h | h) | h) | h <;> subst h <;> exact ⟨by decide, by decide, by decide⟩

theorem dropWhile_eq_nil_of_all {p : Char → Bool} {l : List Char}
    (h : ∀ c ∈ l, p c = true) : l.dropWhile p = [] := by
  induction l with
  | nil => rfl
  | cons a t ih =>
    rw [List.dropWhile_cons, if_pos (h a (by simp))]
    exact ih (fun c hc => h c (by simp [hc]))

theorem dropWhile_eq_self_of_none {p : Char → Bool} {l : List Char}
    (h : ∀ c ∈ l, p c = false) : l.dropWhile p = l := by
  cases l with
  | nil => rfl
  | cons a t => rw [List.dropWhile_cons, if_neg (by simp [h a (by simp)])]

theorem trimChars_eq_self {l : List Char} (h : ∀ c ∈ l, c.isWhitespace = false) :
    trimChars l = l := by
  unfold trimChars
  rw [dropWhile_eq_self_of_none h,
    dropWhile_eq_self_of_none (fun c hc => h c (List.mem_reverse.1 hc)), List.reverse_reverse]

theorem trimChars_eq_nil_of_all {l : List Char} (h : ∀ c ∈ l, c.isWhitespace = true) :
    trimChars l = [] := by
  unfold trimChars
  rw [dropWhile_eq_nil_of_all h]
  rfl

theorem trimChars_ws_prefix {wsp buf : List Char} (h : ∀ c ∈ wsp, c.isWhitespace = true) :
    trimChars (wsp ++ buf) = trimChars buf := by
  unfold trimChars
  rw [List.dropWhile_append, dropWhile_eq_nil_of_all h]
  simp

theorem trimChars_ws_suffix {buf wss : List Char} (h : ∀ c ∈ wss, c.isWhitespace = true) :
    trimChars (buf ++ wss) = trimChars buf := by
  unfold trimChars
  rw [List.dropWhile_append]
  by_cases hb : (buf.dropWhile Char.isWhitespace).isEmpty
  · rw [if_pos hb, dropWhile_eq_nil_of_all h]
    rw [show List.dropWhile Char.isWhitespace buf = [] from by simpa using hb]
  · rw [if_neg hb]
    rw [List.reverse_append, List.dropWhile_append,
      if_pos (by simp [dropWhile_eq_nil_of_all (fun c hc => h c (List.mem_reverse.1 hc))])]

theorem splitGo_ws_prefix :
    ∀ (wsp l buf : List Char) (d : Int), (∀ c ∈ wsp, c.isWhitespace = true) →
      splitGo (wsp ++ l) buf d = splitGo l (buf ++ wsp) d := by
  intro wsp
  induction wsp with
  | nil => intro l buf d _; simp
  | cons w t ih =>
    intro l buf d h
    obtain ⟨hw1, hw2, hw3⟩ := ws_not_special (h w (by simp))
    have ht : ∀ c ∈ t, c.isWhitespace = true := fun c hc => h c (by simp [hc])
    show splitGo (w :: (t ++ l)) buf d = _
    rw [show splitGo (w :: (t ++ l)) buf d = splitGo (t ++ l) (buf ++ [w]) d from by
      simp only [splitGo, if_neg hw1, if_neg hw2, if_neg (by simp [hw3] :
        ¬ (w = ',' ∧ d = 0))]]
    rw [ih l (buf ++ [w]) d ht]
    simp

theorem splitParts_ws_buf :
    ∀ (l wsp buf : List Char) (d : Int), (∀ c ∈ wsp, c.isWhitespace = true) →
      splitParts l (wsp ++ buf) d = splitParts l buf d := by
  intro l
  induction l with
  | nil =>
    intro wsp buf d h
    simp only [splitParts, splitGo]
    by_cases hb : buf = []
    · subst hb
      by_cases hw : wsp = []
      · subst hw; rfl
      · simp only [List.append_nil, hw, if_neg hw, if_pos rfl]
        rw [show trimChars wsp = [] from trimChars_eq_nil_of_all h]
        rfl
    · rw [if_neg (by simp [hb]), if_neg hb, trimChars_ws_prefix h]
  | cons c cs ih =>
    intro wsp buf d h
    simp only [splitParts, splitGo]
    by_cases h1 : c = '('
    · simp only [h1, if_pos rfl]
      have := ih wsp (buf ++ [c]) (d + 1) h
      simpa [splitParts, h1, List.append_assoc] using this
    · by_cases h2 : c = ')'
      · simp only [h1, h2, if_neg h1, if_pos rfl]
        have := ih wsp (buf ++ [c]) (d - 1) h
        simpa [splitParts, h2, List.append_assoc] using this
      · by_cases h3 : c = ',' ∧ d = 0
        · simp only [if_neg h1, if_neg h2, if_pos h3]
          rw [List.filter_cons, List.filter_cons, trimChars_ws_prefix h]
        · simp only [if_neg h1, if_neg h2, if_neg h3]
          have := ih wsp (buf ++ [c]) d h
          simpa [splitParts, List.append_assoc] using this

theorem splitParts_ws_suffix :
    ∀ (l wss buf : List Char) (d : Int), (∀ c ∈ wss, c.isWhitespace = true) →
      splitParts (l ++ wss) buf d = splitParts l buf d := by
  intro l
  induction l with
  | nil =>
    intro wss buf d h
    simp only [List.nil_append, splitParts]
    rw [show splitGo wss buf d = splitGo ([] : List Char) (buf ++ wss) d from by
      rw [← splitGo_ws_prefix wss [] buf d h, List.append_nil]]
    simp only [splitGo]
    by_cases hb : buf = []
    · subst hb
      by_cases hw : wss = []
      · subst hw; rfl
      · simp only [List.nil_append, if_neg hw, if_pos rfl]
        rw [show trimChars wss = [] from trimChars_eq_nil_of_all h]
        rfl
    · rw [if_neg (by simp [hb]), if_neg hb, trimChars_ws_suffix h]
  | cons c cs ih =>
    intro wss buf d h
    simp only [List.cons_append, splitParts, splitGo]
    by_cases h1 : c = '('
    · simp only [h1, if_pos rfl]
      have := ih wss (buf ++ [c]) (d + 1) h
      simpa [splitParts, h1] using this
    · by_cases h2 : c = ')'
      · simp only [if_neg h1, h2, if_pos rfl]
        have := ih wss (buf ++ [c]) (d - 1) h
        simpa [splitParts, h2] using this
      · by_cases h3 : c = ',' ∧ d = 0
        · simp only [if_neg h1, if_neg h2, if_pos h3]
          rw [List.filter_cons, List.filter_cons]
          have := ih wss [] d h
          simp only [splitParts] at this
          rw [show cs.append wss = cs ++ wss from rfl, this]
        · simp only [if_neg h1, if_neg h2, if_neg h3]
          have := ih wss (buf ++ [c]) d h
          simpa [splitParts] using this

theorem split_trim (l : List Char) :
    _split_top_level_args (trimChars l) = _split_top_level_args l := by
  have htw0 : ∀ c ∈ l.takeWhile Char.isWhitespace, c.isWhitespace = true :=
    fun c hc => List.mem_takeWhile_imp hc
  have hX : l.dropWhile Char.isWhitespace =
      trimChars l ++
        ((l.dropWhile Char.isWhitespace).reverse.takeWhile Char.isWhitespace).reverse := by
    conv_lhs => rw [← List.reverse_reverse (l.dropWhile Char.isWhitespace),
      ← List.takeWhile_append_dropWhile Char.isWhitespace
        (l.dropWhile Char.isWhitespace).reverse]
    rw [List.reverse_append]
    rfl
  have hws2 : ∀ c ∈ ((l.dropWhile Char.isWhitespace).reverse.takeWhile
      Char.isWhitespace).reverse, c.isWhitespace = true :=
    fun c hc => List.mem_takeWhile_imp (List.mem_reverse.1 hc)
  calc _split_top_level_args (trimChars l)
      = splitParts (trimChars l) [] 0 := rfl
    _ = splitParts (trimChars l ++
          ((l.dropWhile Char.isWhitespace).reverse.takeWhile Char.isWhitespace).reverse)
          [] 0 := (splitParts_ws_suffix _ _ [] 0 hws2).symm
    _ = splitParts (l.dropWhile Char.isWhitespace) [] 0 := by rw [← hX]
    _ = splitParts (l.dropWhile Char.isWhitespace)
          (l.takeWhile Char.isWhitespace ++ []) 0 := by
          rw [← splitParts_ws_buf _ _ [] 0 htw0]
    _ = _split_top_level_args l := by
          have hpre := splitGo_ws_prefix (l.takeWhile Char.isWhitespace)
            (l.dropWhile Char.isWhitespace) [] 0 htw0
          rw [List.takeWhile_append_dropWhile] at hpre
          rw [List.append_nil, split_eq_splitParts, splitParts, splitParts, hpre,
            List.nil_append]

theorem extract_eq_spec (sig : List Char) :
    _extract_types_from_signature sig = extractTypesSpec sig := by
  unfold _extract_types_from_signature extractTypesSpec
  cases hf : firstIdxOf '(' sig with
  | none => rfl
  | some l =>
    cases hl : lastIdxOf ')' sig with
    | none => rfl
    | some r =>
      by_cases hr : r < l
      · simp [hr]
      · simp only [if_neg hr]
        by_cases hi : (sig.take r).drop (l + 1) = []
        · rw [hi, show trimChars ([] : List Char) = [] from rfl]
        · by_cases ht : trimChars ((sig.take r).drop (l + 1)) = []
          · rw [if_pos ht, if_neg hi]
            have hnil : _split_top_level_args ((sig.take r).drop (l + 1)) = [] := by
              rw [← split_trim, ht]; rfl
            rw [hnil]
          · rw [if_neg ht, if_neg hi, split_trim]

/-- Net parenthesis-depth change of a string under the splitter's scan. -/
def netDepth : List Char → Int
  | [] => 0
  | c :: cs => (if c = '(' then 1 else if c = ')' then -1 else 0) + netDepth cs

/-- Scan check: starting from depth `d`, no comma is met at depth 0 (i.e.
the splitter would emit nothing inside this string). -/
def scanOK : List Char → Int → Bool
  | [], _ => true
  | c :: cs, d =>
    if c = '(' then scanOK cs (d + 1)
    else if c = ')' then scanOK cs (d - 1)
    else if c = ',' then decide (d ≠ 0) && scanOK cs d
    else scanOK cs d

/-- Comma-join of a list of strings, the inverse operation the spec's
round-trip property is about. -/
def joinCommaL : List (List Char) → List Char
  | [] => []
  | [e] => e
  | e :: es => e ++ ',' :: joinCommaL es

theorem netDepth_append (a b : List Char) :
    netDepth (a ++ b) = netDepth a + netDepth b := by
  induction a with
  | nil => simp [netDepth]
  | cons c cs ih => simp [netDepth, ih]; omega

theorem scanOK_append (a b : List Char) (d : Int) :
    scanOK (a ++ b) d = (scanOK a d && scanOK b (d + netDepth a)) := by
  induction a generalizing d with
  | nil => simp [scanOK, netDepth]
  | cons c cs ih =>
    by_cases h1 : c = '('
    · subst h1
      rw [List.cons_append]
      show scanOK (cs ++ b) (d + 1) =
        (scanOK cs (d + 1) && scanOK b (d + (1 + netDepth cs)))
      have he : d + (1 + netDepth cs) = d + 1 + netDepth cs := by omega
      rw [he, ih (d + 1)]
    · by_cases h2 : c = ')'
      · subst h2
        rw [List.cons_append]
        show scanOK (cs ++ b) (d - 1) =
          (scanOK cs (d - 1) && scanOK b (d + (-1 + netDepth cs)))
        have he : d + (-1 + netDepth cs) = d - 1 + netDepth cs := by omega
        rw [he, ih (d - 1)]
      · by_cases h3 : c = ','
        · subst h3
          rw [List.cons_append]
          show (decide (d ≠ 0) && scanOK (cs ++ b) d) =
            ((decide (d ≠ 0) && scanOK cs d) && scanOK b (d + (0 + netDepth cs)))
          have he : d + (0 + netDepth cs) = d + netDepth cs := by omega
          rw [he, ih d, Bool.and_assoc]
        · rw [List.cons_append]
          simp only [scanOK, if_neg h1, if_neg h2, if_neg h3]
          rw [ih d]
          have he : d + netDepth (c :: cs) = d + netDepth cs := by
            simp [netDepth, h1, h2]
          rw [he]

theorem splitGo_cons_open (cs buf : List Char) (d : Int) :
    splitGo ('(' :: cs) buf d = splitGo cs (buf ++ ['(']) (d + 1) := rfl

theorem splitGo_cons_close (cs buf : List Char) (d : Int) :
    splitGo (')' :: cs) buf d = splitGo cs (buf ++ [')']) (d - 1) := rfl

theorem splitGo_cons_comma0 (cs buf : List Char) :
    splitGo (',' :: cs) buf 0 = trimChars buf :: splitGo cs [] 0 := rfl

theorem splitGo_cons_commaNe (cs buf : List Char) (d : Int) (h : d ≠ 0) :
    splitGo (',' :: cs) buf d = splitGo cs (buf ++ [',']) d := by
  simp only [splitGo, if_neg (by decide : ¬ (',' = '(')),
    if_neg (by decide : ¬ (',' = ')'))]
  rw [if_neg (by simp [h])]

theorem splitGo_cons_other {c : Char} (h1 : c ≠ '(') (h2 : c ≠ ')') (h3 : c ≠ ',')
    (cs buf : List Char) (d : Int) :
    splitGo (c :: cs) buf d = splitGo cs (buf ++ [c]) d := by
  simp only [splitGo, if_neg h1, if_neg h2, if_neg (by simp [h3] : ¬ (c = ',' ∧ d = 0))]

theorem scanOK_cons_other {c : Char} (h1 : c ≠ '(') (h2 : c ≠ ')') (h3 : c ≠ ',')
    (cs : List Char) (d : Int) : scanOK (c :: cs) d = scanOK cs d := by
  simp only [scanOK, if_neg h1, if_neg h2, if_neg h3]

theorem netDepth_cons_other {c : Char} (h1 : c ≠ '(') (h2 : c ≠ ')') (cs : List Char) :
    netDepth (c :: cs) = netDepth cs := by
  simp [netDepth, h1, h2]

theorem splitGo_elem :
    ∀ (e rest buf : List Char) (d : Int), scanOK e d = true →
      splitGo (e ++ rest) buf d = splitGo rest (buf ++ e) (d + netDepth e) := by
  intro e
  induction e with
  | nil => intro rest buf d _; simp [netDepth]
  | cons c cs ih =>
    intro rest buf d h
    rw [List.cons_append]
    by_cases h1 : c = '('
    · subst h1
      have h' : scanOK cs (d + 1) = true := h
      rw [splitGo_cons_open, ih rest (buf ++ ['(']) (d + 1) h']
      have e2 : d + 1 + netDepth cs = d + netDepth ('(' :: cs) := by
        show _ = d + (1 + netDepth cs); omega
      rw [List.append_assoc, e2]
      rfl
    · by_cases h2 : c = ')'
      · subst h2
        have h' : scanOK cs (d - 1) = true := h
        rw [splitGo_cons_close, ih rest (buf ++ [')']) (d - 1) h']
        have e2 : d - 1 + netDepth cs = d + netDepth (')' :: cs) := by
          show _ = d + (-1 + netDepth cs); omega
        rw [List.append_assoc, e2]
        rfl
      · by_cases h3 : c = ','
        · subst h3
          have h' : (decide (d ≠ 0) && scanOK cs d) = true := h
          rw [Bool.and_eq_true, decide_eq_true_eq] at h'
          rw [splitGo_cons_commaNe _ _ _ h'.1, ih rest (buf ++ [',']) d h'.2,
            netDepth_cons_other (by decide) (by decide), List.append_assoc]
          rfl
        · have h' : scanOK cs d = true := by
            rw [scanOK_cons_other h1 h2 h3] at h; exact h
          rw [splitGo_cons_other h1 h2 h3, ih rest (buf ++ [c]) d h',
            netDepth_cons_other h1 h2, List.append_assoc]
          rfl

theorem split_roundtrip :
    ∀ es : List (List Char),
      (∀ e ∈ es, e ≠ [] ∧ trimChars e = e ∧ netDepth e = 0 ∧ scanOK e 0 = true) →
      _split_top_level_args (joinCommaL es) = es := by
  intro es
  induction es with
  | nil => intro _; rfl
  | cons e es ih =>
    intro h
    obtain ⟨he1, he2, he3, he4⟩ := h e (by simp)
    have hes : ∀ x ∈ es, x ≠ [] ∧ trimChars x = x ∧ netDepth x = 0 ∧ scanOK x 0 = true :=
      fun x hx => h x (by simp [hx])
    cases es with
    | nil =>
      show _split_top_level_args e = [e]
      unfold _split_top_level_args
      rw [show splitGo e [] 0 = splitGo ([] : List Char) ([] ++ e) (0 + netDepth e) from by
        rw [← splitGo_elem e [] [] 0 he4, List.append_nil]]
      simp only [List.nil_append, splitGo, if_neg he1, he2]
      simp [he1]
    | cons e2 es2 =>
      show _split_top_level_args (e ++ ',' :: joinCommaL (e2 :: es2)) = e :: e2 :: es2
      unfold _split_top_level_args
      rw [splitGo_elem e (',' :: joinCommaL (e2 :: es2)) [] 0 he4, he3, List.nil_append]
      rw [show (0 : Int) + 0 = 0 from rfl, splitGo_cons_comma0, he2]
      rw [List.filter_cons, if_pos (by simp [he1])]
      have := ih hes
      unfold _split_top_level_args at this
      rw [this]

/-- Grammar of Solidity Type Strings from the spec's data model, indexed
by a flag: `TS false s` means `s` is a single Type String (an elementary
alphanumeric name, a tuple `(T1,...,Tn)` with `n ≥ 1`, or an array `B[]`
or `B[k]`); `TS true s` means `s` is a non-empty comma-join of Type
Strings (a tuple interior). -/
inductive TS : Bool → List Char → Prop
  | elem (s : List Char) (h1 : s ≠ []) (h2 : ∀ c ∈ s, c.isAlphanum = true) : TS false s
  | tuple (inner : List Char) (h : TS true inner) : TS false ('(' :: inner ++ [')'])
  | arrDyn (b : List Char) (h : TS false b) : TS false (b ++ ['[', ']'])
  | arrFix (b k : List Char) (hb : TS false b) (h1 : k ≠ [])
      (h2 : ∀ c ∈ k, c.isDigit = true) : TS false (b ++ '[' :: (k ++ [']']))
  | one (m : List Char) (h : TS false m) : TS true m
  | more (m rest : List Char) (hm : TS false m) (hr : TS true rest) :
      TS true (m ++ ',' :: rest)

/-- Type Strings in the sense of the spec's grammar. -/
def IsTypeString (s : List Char) : Prop := TS false s

theorem alphanum_not_special {c : Char} (h : c.isAlphanum = true) :
    c.isWhitespace = false ∧ c ≠ '(' ∧ c ≠ ')' ∧ c ≠ ',' := by
  refine ⟨?_, ?_, ?_, ?_⟩
  · cases hx : c.isWhitespace with
    | false => rfl
    | true =>
      obtain ⟨hw1, hw2, hw3⟩ := ws_not_special hx
      simp [Char.isWhitespace] at hx
      rcases hx with ((hc | hc) | hc) | hc <;> subst hc <;> exact absurd h (by decide)
  · intro hc; subst hc; exact absurd h (by decide)
  · intro hc; subst hc; exact absurd h (by decide)
  · intro hc; subst hc; exact absurd h (by decide)

theorem digit_is_alphanum {c : Char} (h : c.isDigit = true) : c.isAlphanum = true := by
  simp [Char.isAlphanum, h]

theorem scanOK_of_no_special {s : List Char}
    (h : ∀ c ∈ s, c ≠ '(' ∧ c ≠ ')' ∧ c ≠ ',') (d : Int) : scanOK s d = true := by
  induction s generalizing d with
  | nil => rfl
  | cons c cs ih =>
    obtain ⟨h1, h2, h3⟩ := h c (by simp)
    rw [scanOK_cons_other h1 h2 h3]
    exact ih (fun x hx => h x (by simp [hx])) d

theorem netDepth_of_no_parens {s : List Char}
    (h : ∀ c ∈ s, c ≠ '(' ∧ c ≠ ')') : netDepth s = 0 := by
  induction s with
  | nil => rfl
  | cons c cs ih =>
    obtain ⟨h1, h2⟩ := h c (by simp)
    rw [netDepth_cons_other h1 h2]
    exact ih (fun x hx => h x (by simp [hx]))

theorem TS_props {b : Bool} {s : List Char} (h : TS b s) :
    s ≠ [] ∧ (∀ c ∈ s, c.isWhitespace = false) ∧ netDepth s = 0 ∧
      ∀ d : Int, (if b then 1 ≤ d else 0 ≤ d) → scanOK s d = true := by
  induction h with
  | elem s h1 h2 =>
    refine ⟨h1, fun c hc => (alphanum_not_special (h2 c hc)).1, ?_, ?_⟩
    · exact netDepth_of_no_parens
        (fun c hc => ⟨(alphanum_not_special (h2 c hc)).2.1,
          (alphanum_not_special (h2 c hc)).2.2.1⟩)
    · intro d _
      exact scanOK_of_no_special
        (fun c hc => ⟨(alphanum_not_special (h2 c hc)).2.1,
          (alphanum_not_special (h2 c hc)).2.2.1, (alphanum_not_special (h2 c hc)).2.2.2⟩) d
  | tuple inner h ih =>
    obtain ⟨ih1, ih2, ih3, ih4⟩ := ih
    refine ⟨by simp, ?_, ?_, ?_⟩
    · intro c hc
      simp at hc
      rcases hc with rfl | hc | rfl
      · decide
      · exact ih2 c hc
      · decide
    · show netDepth ('(' :: (inner ++ [')'])) = 0
      rw [show netDepth ('(' :: (inner ++ [')'])) = 1 + netDepth (inner ++ [')']) from rfl,
        netDepth_append, ih3]
      decide
    · intro d hd
      simp at hd
      show scanOK ('(' :: (inner ++ [')'])) d = true
      rw [show scanOK ('(' :: (inner ++ [')'])) d = scanOK (inner ++ [')']) (d + 1) from rfl,
        scanOK_append, ih3]
      rw [ih4 (d + 1) (by simp; omega)]
      rfl
  | arrDyn b hb ih =>
    obtain ⟨ih1, ih2, ih3, ih4⟩ := ih
    refine ⟨by simp [ih1], ?_, ?_, ?_⟩
    · intro c hc
      simp at hc
      rcases hc with hc | rfl | rfl
      · exact ih2 c hc
      · decide
      · decide
    · rw [netDepth_append, ih3]
      decide
    · intro d hd
      simp at hd
      rw [scanOK_append, ih3, ih4 d (by simpa using hd)]
      rfl
  | arrFix b k hb h1 h2 ih =>
    obtain ⟨ih1, ih2, ih3, ih4⟩ := ih
    have hk : ∀ c ∈ '[' :: (k ++ [']']), c ≠ '(' ∧ c ≠ ')' ∧ c ≠ ',' ∧
        c.isWhitespace = false := by
      intro c hc
      simp at hc
      rcases hc with rfl | hc | rfl
      · exact ⟨by decide, by decide, by decide, by decide⟩
      · have := alphanum_not_special (digit_is_alphanum (h2 c hc))
        exact ⟨this.2.1, this.2.2.1, this.2.2.2, this.1⟩
      · exact ⟨by decide, by decide, by decide, by decide⟩
    refine ⟨by simp [ih1], ?_, ?_, ?_⟩
    · intro c hc
      rw [List.mem_append] at hc
      rcases hc with hc | hc
      · exact ih2 c hc
      · exact (hk c hc).2.2.2
    · rw [netDepth_append, ih3,
        netDepth_of_no_parens (fun c hc => ⟨(hk c hc).1, (hk c hc).2.1⟩)]
      rfl
    · intro d hd
      simp at hd
      rw [scanOK_append, ih3, ih4 d (by simpa using hd),
        scanOK_of_no_special (fun c hc => ⟨(hk c hc).1, (hk c hc).2.1, (hk c hc).2.2.1⟩)]
      rfl
  | one m h ih =>
    obtain ⟨ih1, ih2, ih3, ih4⟩ := ih
    exact ⟨ih1, ih2, ih3, fun d hd => ih4 d (by simp at hd ⊢; omega)⟩
  | more m rest hm hr ihm ihr =>
    obtain ⟨m1, m2, m3, m4⟩ := ihm
    obtain ⟨r1, r2, r3, r4⟩ := ihr
    refine ⟨by simp [m1], ?_, ?_, ?_⟩
    · intro c hc
      simp at hc
      rcases hc with hc | rfl | hc
      · exact m2 c hc
      · decide
      · exact r2 c hc
    · rw [netDepth_append, m3, show netDepth (',' :: rest) = netDepth rest from
        netDepth_cons_other (by decide) (by decide) rest, r3]
      rfl
    · intro d hd
      simp at hd
      rw [scanOK_append, m3, m4 d (by simp; omega)]
      show (true && scanOK (',' :: rest) (d + 0)) = true
      rw [Bool.true_and, show d + 0 = d from by omega]
      show (decide (d ≠ 0) && scanOK rest d) = true
      rw [r4 d (by simp; omega)]
      simp
      omega

theorem TS_roundtrip_hyps {s : List Char} (h : IsTypeString s) :
    s ≠ [] ∧ trimChars s = s ∧ netDepth s = 0 ∧ scanOK s 0 = true := by
  obtain ⟨h1, h2, h3, h4⟩ := TS_props h
  exact ⟨h1, trimChars_eq_self h2, h3, h4 0 (by simp)⟩

theorem hexDig_mem (n : Nat) : hexDig n ∈ "0123456789abcdef".data := by
  unfold hexDig
  rcases Nat.lt_or_ge n "0123456789abcdef".data.length with h | h
  · rw [List.getD_eq_getElem _ _ h]
    exact List.getElem_mem h
  · rw [List.getD_eq_default _ _ h]
    decide

theorem hexOfBytes_parts (bs : List Nat) :
    (bs.map byteHex).flatten.length = 2 * bs.length ∧
      ∀ c ∈ (bs.map byteHex).flatten, c ∈ "0123456789abcdef".data := by
  induction bs with
  | nil => exact ⟨rfl, by simp⟩
  | cons b t ih =>
    constructor
    · simp only [List.map_cons, List.flatten_cons, List.length_append, ih.1, byteHex]
      simp; omega
    · intro c hc
      simp only [List.map_cons, List.flatten_cons, List.mem_append] at hc
      rcases hc with hc | hc
      · simp [byteHex] at hc
        rcases hc with rfl | rfl <;> exact hexDig_mem _
      · exact ih.2 c hc

theorem isPySpace_hexDigitVal {c : Char} (h : isPySpace c = true) :
    hexDigitVal c = none := by
  simp [isPySpace] at h
  rcases h with ((((h | h) | h) | h) | h) | h <;> subst h <;> rfl

theorem hexDigitVal_not_space {c : Char} {v : Nat} (h : hexDigitVal c = some v) :
    isPySpace c = false := by
  cases hx : isPySpace c
  · rfl
  · rw [isPySpace_hexDigitVal hx] at h
    exact absurd h (by simp)

theorem bfh_space {c : Char} (cs : List Char) (hsp : isPySpace c = true) :
    bytesFromHex (c :: cs) = bytesFromHex cs := by
  simp [bytesFromHex, hsp]

theorem bfh_badc {c : Char} (cs : List Char) (hsp : isPySpace c = false)
    (hx : hexDigitVal c = none) : bytesFromHex (c :: cs) = none := by
  simp [bytesFromHex, hsp, hx]

theorem bfh_single {c : Char} {v : Nat} (hsp : isPySpace c = false)
    (hx : hexDigitVal c = some v) : bytesFromHex [c] = none := by
  simp [bytesFromHex, hsp, hx]

theorem bfh_badc2 {c c2 : Char} {v : Nat} (rest : List Char)
    (hsp : isPySpace c = false) (hx1 : hexDigitVal c = some v)
    (hx2 : hexDigitVal c2 = none) : bytesFromHex (c :: c2 :: rest) = none := by
  simp [bytesFromHex, hsp, hx1, hx2]

theorem bfh_pair {c c2 : Char} {v1 v2 : Nat} (rest : List Char)
    (hsp : isPySpace c = false) (hx1 : hexDigitVal c = some v1)
    (hx2 : hexDigitVal c2 = some v2) :
    bytesFromHex (c :: c2 :: rest) =
      (bytesFromHex rest).map (fun bs => (16 * v1 + v2) :: bs) := by
  simp [bytesFromHex, hsp, hx1, hx2]

theorem ihb_space {c : Char} (cs : List Char) (hsp : isPySpace c = true) :
    isHexBody (c :: cs) = isHexBody cs := by
  simp [isHexBody, List.splitOnP_cons, hsp]

theorem ihb_cons {c : Char} {cs r : List Char} {rs : List (List Char)}
    (hsp : isPySpace c = false)
    (hsplit : List.splitOnP isPySpace cs = r :: rs) :
    isHexBody (c :: cs) =
      ((decide ((c :: r).length % 2 = 0) &&
          (c :: r).all fun x => (hexDigitVal x).isSome) &&
        rs.all fun run =>
          decide (run.length % 2 = 0) && run.all fun x => (hexDigitVal x).isSome) := by
  simp only [isHexBody, List.splitOnP_cons, hsp, Bool.false_eq_true, if_false, hsplit]
  rw [show (r :: rs).modifyHead (List.cons c) = (c :: r) :: rs from rfl]
  rw [List.all_cons]

theorem decide_mod2_add2 (k : Nat) :
    decide ((k + 2) % 2 = 0) = decide (k % 2 = 0) := by
  by_cases h : k % 2 = 0
  · rw [decide_eq_true (by omega), decide_eq_true h]
  · rw [decide_eq_false (by omega), decide_eq_false h]

theorem bytesFromHex_isSome :
    ∀ l : List Char, (bytesFromHex l).isSome = isHexBody l := by
  have key : ∀ (n : Nat) (l : List Char), l.length ≤ n →
      (bytesFromHex l).isSome = isHexBody l := by
    intro n
    induction n with
    | zero =>
      intro l hl
      have hnil : l = [] := List.eq_nil_of_length_eq_zero (by omega)
      subst hnil
      rfl
    | succ n ih =>
      intro l hl
      match l with
      | [] => rfl
      | c :: cs =>
        have hlc : cs.length ≤ n := by simp at hl; omega
        cases hsp : isPySpace c with
        | true => rw [bfh_space cs hsp, ih cs hlc, ihb_space cs hsp]
        | false =>
          obtain ⟨r, rs, hsplit⟩ :=
            List.exists_cons_of_ne_nil (List.splitOnP_ne_nil isPySpace cs)
          cases hx1 : hexDigitVal c with
          | none =>
            rw [bfh_badc cs hsp hx1, ihb_cons hsp hsplit]
            simp [List.all_cons, hx1]
          | some v1 =>
            cases cs with
            | nil =>
              rw [bfh_single hsp hx1,
                ihb_cons hsp (rfl : List.splitOnP isPySpace [] = [] :: [])]
              simp
            | cons c2 rest =>
              cases hx2 : hexDigitVal c2 with
              | none =>
                rw [bfh_badc2 rest hsp hx1 hx2]
                cases hsp2 : isPySpace c2 with
                | true =>
                  rw [ihb_cons hsp (show List.splitOnP isPySpace (c2 :: rest) =
                      [] :: List.splitOnP isPySpace rest from by
                    rw [List.splitOnP_cons, if_pos hsp2])]
                  simp
                | false =>
                  obtain ⟨r2, rs2, hsplit2⟩ :=
                    List.exists_cons_of_ne_nil (List.splitOnP_ne_nil isPySpace rest)
                  rw [ihb_cons hsp (show List.splitOnP isPySpace (c2 :: rest) =
                      (c2 :: r2) :: rs2 from by
                    rw [List.splitOnP_cons, if_neg (by simp [hsp2]), hsplit2]
                    rfl)]
                  simp [List.all_cons, hx2]
              | some v2 =>
                have hsp2 : isPySpace c2 = false := hexDigitVal_not_space hx2
                obtain ⟨r2, rs2, hsplit2⟩ :=
                  List.exists_cons_of_ne_nil (List.splitOnP_ne_nil isPySpace rest)
                have hlr : rest.length ≤ n := by simp at hl; omega
                rw [bfh_pair rest hsp hx1 hx2]
                rw [show ((bytesFromHex rest).map
                    (fun bs => (16 * v1 + v2) :: bs)).isSome =
                  (bytesFromHex rest).isSome from by cases bytesFromHex rest <;> rfl]
                rw [ih rest hlr]
                rw [ihb_cons hsp (show List.splitOnP isPySpace (c2 :: rest) =
                    (c2 :: r2) :: rs2 from by
                  rw [List.splitOnP_cons, if_neg (by simp [hsp2]), hsplit2]
                  rfl)]
                rw [show isHexBody rest =
                    ((decide (r2.length % 2 = 0) &&
                        r2.all fun x => (hexDigitVal x).isSome) &&
                      rs2.all fun run =>
                        decide (run.length % 2 = 0) &&
                          run.all fun x => (hexDigitVal x).isSome) from by
                  simp [isHexBody, hsplit2]]
                rw [show (c :: c2 :: r2).length = r2.length + 2 from by simp]
                rw [decide_mod2_add2]
                rw [List.all_cons, List.all_cons]
                simp [hx1, hx2]
  intro l
  exact key l.length l le_rfl

/-- Claim-side restatement of the elementary branch of the
Post-Processor, written from the spec's words: checksum exactly for
`address`, `0x`-hex exactly for `bytes` / fixed-size `bytesN`, pass
everything else through unchanged. -/
def elemRenderSpec (cs : Val → List Char) (t : List Char) (v : Val) : Option Val :=
  if t = "address".data then some (.vstr (cs v))
  else if ("bytes".data.isPrefixOf t ∧ t ≠ "bytes".data) ∨ t = "bytes".data then
    v.asBytes.map fun bs => .vstr (hexOfBytes bs)
  else some v

theorem pp_arr_seq (cs : Val → List Char) (t : List Char) (vs : List Val)
    (h : (normType t).getLast? = some ']') :
    _postprocess_value cs t (.vseq vs) =
      (vs.mapM fun w => _postprocess_value cs (stripBase (normType t)) w).map .vseq := by
  rw [pp_arr _ _ _ h]
  rfl

theorem pp_elem_eq_spec (cs : Val → List Char) (t : List Char) (v : Val)
    (h1 : ¬ (normType t).getLast? = some ']')
    (h2 : ¬ ((normType t).head? = some '(' ∧ (normType t).getLast? = some ')')) :
    _postprocess_value cs t v = elemRenderSpec cs (normType t) v := by
  unfold elemRenderSpec
  by_cases h3 : normType t = "address".data
  · rw [pp_elem_addr cs t v h1 h2 h3, if_pos h3]
  · rw [if_neg h3]
    by_cases h4 : "bytes".data.isPrefixOf (normType t)
    · rw [pp_elem_bytes cs t v h1 h2 h3 h4]
      rw [if_pos ?side]
      case side =>
        by_cases h5 : normType t = "bytes".data
        · exact Or.inr h5
        · exact Or.inl ⟨h4, h5⟩
    · rw [pp_elem_other cs t v h1 h2 h3 h4]
      rw [if_neg ?side]
      case side =>
        intro hc
        rcases hc with ⟨hc, -⟩ | hc
        · exact h4 hc
        · rw [hc] at h4
          exact h4 (by decide)

theorem zip_take_length {α β : Type} :
    ∀ (l1 : List α) (l2 : List β), l1.zip (l2.take l1.length) = l1.zip l2 := by
  intro l1
  induction l1 with
  | nil => intro l2; simp
  | cons a t1 ih =>
    intro l2
    cases l2 with
    | nil => simp
    | cons b t2 =>
      simp only [List.length_cons, List.take_succ_cons, List.zip_cons_cons, ih]

theorem pp_tuple_short (cs : Val → List Char) (t : List Char) (vs : List Val)
    (h1 : ¬ (normType t).getLast? = some ']')
    (h2 : (normType t).head? = some '(' ∧ (normType t).getLast? = some ')')
    (h3 : (_split_top_level_args (tupleInner (normType t))).length ≠ 0)
    (h4 : vs.length < (_split_top_level_args (tupleInner (normType t))).length) :
    _postprocess_value cs t (.vseq vs) = none := by
  rw [pp_tuple cs t (.vseq vs) h1 h2 h3]
  simp only [Val.asSeq, Option.some_bind, if_pos h4]

theorem pp_tuple_take (cs : Val → List Char) (t : List Char) (vs : List Val)
    (h1 : ¬ (normType t).getLast? = some ']')
    (h2 : (normType t).head? = some '(' ∧ (normType t).getLast? = some ')')
    (h3 : (_split_top_level_args (tupleInner (normType t))).length ≠ 0) :
    _postprocess_value cs t (.vseq vs) =
      _postprocess_value cs t
        (.vseq (vs.take (_split_top_level_args (tupleInner (normType t))).length)) := by
  by_cases h4 : vs.length < (_split_top_level_args (tupleInner (normType t))).length
  · rw [List.take_of_length_le (by omega)]
  · rw [pp_tuple cs t _ h1 h2 h3, pp_tuple cs t _ h1 h2 h3]
    simp only [Val.asSeq, Option.some_bind]
    rw [if_neg h4, if_neg (by simp [List.length_take]; omega)]
    rw [zip_take_length]

theorem parse_unknown (abi : List (List Char) → List Nat → Option (List Val))
    (cs : Val → List Char) (cd : List Char) (sels : List (List Char × SelEntry))
    (h1 : ¬ (stripped0x cd).length < 8)
    (h2 : isHexBody ((stripped0x cd).drop 8) = true)
    (h3 : dictGet sels ('0' :: 'x' :: (stripped0x cd).take 8) = none) :
    parse_tx_input abi cs cd sels =
      some (.unknown ('0' :: 'x' :: (stripped0x cd).take 8)
        "Unknown function selector".data) := by
  unfold parse_tx_input
  rw [if_neg h1]
  have hb : (bytesFromHex ((stripped0x cd).drop 8)).isSome = true := by
    rw [bytesFromHex_isSome]; exact h2
  obtain ⟨bs, hbs⟩ := Option.isSome_iff_exists.1 hb
  simp only [hbs, h3]

theorem parse_invalid_hex (abi : List (List Char) → List Nat → Option (List Val))
    (cs : Val → List Char) (cd : List Char) (sels : List (List Char × SelEntry))
    (h1 : ¬ (stripped0x cd).length < 8)
    (h2 : isHexBody ((stripped0x cd).drop 8) = false) :
    parse_tx_input abi cs cd sels = none := by
  unfold parse_tx_input
  rw [if_neg h1]
  have hb : bytesFromHex ((stripped0x cd).drop 8) = none := by
    have := bytesFromHex_isSome ((stripped0x cd).drop 8)
    rw [h2] at this
    exact Option.not_isSome_iff_eq_none.1 (by simp [this])
  simp only [hb]

theorem parse_some_selector (abi : List (List Char) → List Nat → Option (List Val))
    (cs : Val → List Char) (cd : List Char) (sels : List (List Char × SelEntry))
    (r : TxRecord) (h : parse_tx_input abi cs cd sels = some r) :
    r.selector = '0' :: 'x' :: (stripped0x cd).take 8 := by
  unfold parse_tx_input at h
  by_cases h1 : (stripped0x cd).length < 8
  · rw [if_pos h1] at h; exact absurd h (by simp)
  · rw [if_neg h1] at h
    cases hb : bytesFromHex ((stripped0x cd).drop 8) with
    | none => simp [hb] at h
    | some bs =>
      simp only [hb] at h
      cases hd : dictGet sels ('0' :: 'x' :: (stripped0x cd).take 8) with
      | none =>
        simp only [hd] at h
        injection h with h
        subst h
        rfl
      | some entry =>
        simp only [hd] at h
        cases he : _extract_types_from_signature entry.signature with
        | none => simp [he] at h
        | some arg_types =>
          simp only [he] at h
          by_cases ha : arg_types = []
          · rw [if_pos ha] at h
            injection h with h
            subst h
            rfl
          · rw [if_neg ha] at h
            cases hab : abi arg_types bs with
            | none => simp [hab] at h
            | some decoded =>
              simp only [hab] at h
              cases hm : (arg_types.zip decoded).mapM
                  (fun p => _postprocess_value cs p.1 p.2) with
              | none =>
                rw [hm] at h
                exact absurd h (by simp)
              | some pretty =>
                simp only [hm] at h
                injection h with h
                subst h
                rfl

theorem parse_some_hexvalid (abi : List (List Char) → List Nat → Option (List Val))
    (cs : Val → List Char) (cd : List Char) (sels : List (List Char × SelEntry))
    (r : TxRecord) (h : parse_tx_input abi cs cd sels = some r) :
    isHexBody ((stripped0x cd).drop 8) = true := by
  unfold parse_tx_input at h
  by_cases h1 : (stripped0x cd).length < 8
  · rw [if_pos h1] at h; exact absurd h (by simp)
  · rw [if_neg h1] at h
    cases hb : bytesFromHex ((stripped0x cd).drop 8) with
    | none => rw [hb] at h; exact absurd h (by simp)
    | some bs =>
      rw [← bytesFromHex_isSome, hb]
      rfl

/-- Claim C1, counterexample.  The claim says every arity mismatch
between a tuple's member count and the decoded value's element count
(fewer OR more elements) fails with a `DecodingShapeError`.  The code
iterates `range(len(subtypes))` only, so a 3-element value decoded
against the 2-member tuple `"(bool,bool)"` is rendered successfully,
silently ignoring the extra element, instead of failing. -/
theorem c1_counterexample :
    _postprocess_value cs0 "(bool,bool)".data
      (.vseq [.vbool true, .vbool false, .vbool true]) =
      some (.vmap [("_0".data, .vbool true), ("_1".data, .vbool false)]) := by
  rw [pp_tuple _ _ _ (by decide) (by decide) (by decide)]
  rw [show _split_top_level_args (tupleInner (normType "(bool,bool)".data)) =
      ["bool".data, "bool".data] from by decide]
  simp only [Val.asSeq, Option.some_bind, List.length_cons, List.length_nil,
    List.zip_cons_cons, List.zip_nil_left, List.mapM_cons, List.mapM_nil]
  rw [if_neg (by omega)]
  rw [pp_elem_other cs0 "bool".data (.vbool true) (by decide) (by decide) (by decide)
      (by decide),
    pp_elem_other cs0 "bool".data (.vbool false) (by decide) (by decide) (by decide)
      (by decide)]
  simp [mkTupleKey, List.enum]
  exact ⟨rfl, rfl⟩

/-- Claim C1, amended.  For a tuple type string with `n ≥ 1` member
types, the Post-Processor fails (Python `IndexError`, i.e. `none`) when
the decoded sequence has FEWER than `n` elements; when it has `n` or
more elements it succeeds, rendering exactly the first `n` elements and
ignoring any extras (the result equals the one for the value truncated
to `n` elements). -/
theorem c1_amended (cs : Val → List Char) (t : List Char) (vs : List Val)
    (h1 : ¬ (normType t).getLast? = some ']')
    (h2 : (normType t).head? = some '(' ∧ (normType t).getLast? = some ')')
    (h3 : (_split_top_level_args (tupleInner (normType t))).length ≠ 0) :
    (vs.length < (_split_top_level_args (tupleInner (normType t))).length →
      _postprocess_value cs t (.vseq vs) = none) ∧
    _postprocess_value cs t (.vseq vs) =
      _postprocess_value cs t
        (.vseq (vs.take (_split_top_level_args (tupleInner (normType t))).length)) :=
  ⟨fun h4 => pp_tuple_short cs t vs h1 h2 h3 h4, pp_tuple_take cs t vs h1 h2 h3⟩

/-- Claim C1, witness: the amended claim at the tuple `"(bool,bool)"`
with a 1-element value (fails) and a 3-element value (truncated). -/
theorem c1_witness :
    (_postprocess_value cs0 "(bool,bool)".data (.vseq [.vbool true]) = none) ∧
    _postprocess_value cs0 "(bool,bool)".data
        (.vseq [.vbool true, .vbool false, .vbool true]) =
      _postprocess_value cs0 "(bool,bool)".data
        (.vseq ([.vbool true, .vbool false, .vbool true].take
          (_split_top_level_args (tupleInner (normType "(bool,bool)".data))).length)) :=
  ⟨(c1_amended cs0 "(bool,bool)".data [.vbool true]
      (by decide) (by decide) (by decide)).1 (by decide),
   (c1_amended cs0 "(bool,bool)".data [.vbool true, .vbool false, .vbool true]
      (by decide) (by decide) (by decide)).2⟩

/-- Claim C2, counterexample.  The claim says registry lookups normalize
the selector's case, so upper-case call-data still hits the lowercase
registry key.  The code never lowercases: `"0xA9059CBB"` misses the
registry (which holds `"0xa9059cbb"`, shown in the second conjunct) and
is reported unknown. -/
theorem c2_counterexample :
    parse_tx_input abi0 cs0 "0xA9059CBB".data f_selector_dict =
      some (.unknown "0xA9059CBB".data "Unknown function selector".data) ∧
    dictGet f_selector_dict "0xa9059cbb".data =
      some ⟨"transfer".data, "transfer(address,uint256)".data⟩ :=
  ⟨rfl, rfl⟩

/-- Claim C2, amended.  The selector used for the lookup and placed in
the result record is `'0x'` plus the first 8 characters of the stripped
call-data with its case preserved (no normalization); consequently only
call-data whose selector digits already match the registry key's case
can hit — the lowercase `"0xa9059cbb"` resolves to `transfer`. -/
theorem c2_amended :
    (∀ (abi : List (List Char) → List Nat → Option (List Val)) (cs : Val → List Char)
        (cd : List Char) (sels : List (List Char × SelEntry)) (r : TxRecord),
      parse_tx_input abi cs cd sels = some r →
      TxRecord.selector r = '0' :: 'x' :: (stripped0x cd).take 8) ∧
    parse_tx_input abi1 cs0 "0xa9059cbb".data f_selector_dict =
      some (.known "0xa9059cbb".data "transfer".data "transfer(address,uint256)".data
        ["address".data, "uint256".data] []) :=
  ⟨parse_some_selector, rfl⟩

/-- Claim C2, witness: the amended claim applied to the lowercase
`transfer` call-data. -/
theorem c2_witness :
    TxRecord.selector (TxRecord.known "0xa9059cbb".data "transfer".data
        "transfer(address,uint256)".data ["address".data, "uint256".data] []) =
      '0' :: 'x' :: (stripped0x "0xa9059cbb".data).take 8 :=
  c2_amended.1 abi1 cs0 "0xa9059cbb".data f_selector_dict _ c2_amended.2

/-- Claim C3, counterexample.  The claim says every call-data of at
least 8 hex characters with an unknown selector yields the structured
`known=false` record and never raises.  `"deadbeef0"` is 9 hex
characters with the unknown selector `0xdeadbeef`, yet the orchestrator
raises (models Python `bytes.fromhex("0")` failing on the odd-length
body before the registry lookup). -/
theorem c3_counterexample :
    parse_tx_input abi0 cs0 "deadbeef0".data f_selector_dict = none := rfl

/-- Claim C3, amended.  For every call-data whose stripped form has at
least 8 characters and whose post-selector body is accepted by the
hex-to-bytes conversion (`isHexBody`: whitespace-separated pairs of
hexadecimal digits, as `bytes.fromhex` accepts), a selector absent from
the registry yields the record
`{known: false, error: "Unknown function selector"}` and never raises. -/
theorem c3_amended (abi : List (List Char) → List Nat → Option (List Val))
    (cs : Val → List Char) (cd : List Char) (sels : List (List Char × SelEntry))
    (h1 : ¬ (stripped0x cd).length < 8)
    (h2 : isHexBody ((stripped0x cd).drop 8) = true)
    (h3 : dictGet sels ('0' :: 'x' :: (stripped0x cd).take 8) = none) :
    parse_tx_input abi cs cd sels =
      some (.unknown ('0' :: 'x' :: (stripped0x cd).take 8)
        "Unknown function selector".data) :=
  parse_unknown abi cs cd sels h1 h2 h3

/-- Claim C3, witness: the amended claim at `"deadbeefaa"` (valid hex
body `"aa"`, selector `0xdeadbeef` absent from the registry). -/
theorem c3_witness :
    parse_tx_input abi0 cs0 "deadbeefaa".data f_selector_dict =
      some (.unknown ('0' :: 'x' :: (stripped0x "deadbeefaa".data).take 8)
        "Unknown function selector".data) :=
  c3_amended abi0 cs0 "deadbeefaa".data f_selector_dict (by decide) (by decide) rfl

/-- Claim C4.  The splitter is the single left-to-right depth-counting
scan (the definition of `_split_top_level_args` via `splitGo`), and in
particular `split("(a,b),(c,d),e") = ["(a,b)", "(c,d)", "e"]`,
`split("") = []`, and `split("a") = ["a"]`. -/
theorem c4_splitter_examples :
    _split_top_level_args "(a,b),(c,d),e".data =
        ["(a,b)".data, "(c,d)".data, "e".data] ∧
    _split_top_level_args "".data = [] ∧
    _split_top_level_args "a".data = ["a".data] :=
  ⟨rfl, rfl, rfl⟩

/-- Claim C5.  For every list of Type Strings (spec grammar `TS`; such
strings contain no top-level commas), splitting the comma-join of the
list reproduces the list exactly. -/
theorem c5_split_join_roundtrip (es : List (List Char)) (h : ∀ e ∈ es, IsTypeString e) :
    _split_top_level_args (joinCommaL es) = es :=
  split_roundtrip es (fun e he => TS_roundtrip_hyps (h e he))

/-- Claim C5, witness: the round trip at `["uint256", "(bool,address)"]`. -/
theorem c5_witness :
    _split_top_level_args (joinCommaL ["uint256".data, "(bool,address)".data]) =
      ["uint256".data, "(bool,address)".data] := by
  apply c5_split_join_roundtrip
  intro e he
  simp at he
  rcases he with rfl | rfl
  · exact TS.elem _ (by decide) (by decide)
  · exact show TS false ('(' :: "bool,address".data ++ [')']) from
      TS.tuple _ (TS.more "bool".data "address".data
        (TS.elem _ (by decide) (by decide))
        (TS.one _ (TS.elem _ (by decide) (by decide))))

/-- Claim C6.  The extractor equals the spec's description (substring
strictly between the first `(` and the last `)`; empty interior gives
`[]`, otherwise the splitter's result); it fails exactly when `(` is
absent, `)` is absent, or the last `)` precedes the first `(`; and
`extract_types("swap()") = []`,
`extract_types("foo(uint256)") = ["uint256"]`. -/
theorem c6_extractor :
    (∀ sig : List Char, _extract_types_from_signature sig = extractTypesSpec sig) ∧
    (∀ sig : List Char, _extract_types_from_signature sig = none ↔
      (firstIdxOf '(' sig = none ∨ lastIdxOf ')' sig = none ∨
        ∃ l r, firstIdxOf '(' sig = some l ∧ lastIdxOf ')' sig = some r ∧ r < l)) ∧
    _extract_types_from_signature "swap()".data = some [] ∧
    _extract_types_from_signature "foo(uint256)".data = some ["uint256".data] := by
  refine ⟨extract_eq_spec, ?_, rfl, rfl⟩
  intro sig
  unfold _extract_types_from_signature
  cases hf : firstIdxOf '(' sig with
  | none => simp [hf]
  | some l =>
    cases hl : lastIdxOf ')' sig with
    | none => simp [hf, hl]
    | some r =>
      by_cases hr : r < l
      · simp [hf, hl, hr]
      · by_cases hi : trimChars ((sig.take r).drop (l + 1)) = []
        · simp [hi, hf, hl, hr]
        · simp [hi, hf, hl, hr]

/-- Claim C6, witness: the refinement instantiated at a concrete
signature. -/
theorem c6_witness :
    _extract_types_from_signature "bar(int8,bytes)".data =
      extractTypesSpec "bar(int8,bytes)".data :=
  c6_extractor.1 "bar(int8,bytes)".data

/-- Claim C7.  For an array type string (trailing `]` after
normalization) and a sequence value, the Post-Processor strips only the
rightmost `[...]` (so `uint256[][]` peels one dimension to `uint256[]`
and `uint256[]` peels to `uint256`) and renders every element with the
base type in order; in particular `"address[]"` over two raw addresses
gives the 2-element sequence of their checksums in order. -/
theorem c7_array_rendering :
    (∀ (cs : Val → List Char) (t : List Char) (vs : List Val),
      (normType t).getLast? = some ']' →
      _postprocess_value cs t (.vseq vs) =
        (vs.mapM fun w => _postprocess_value cs (stripBase (normType t)) w).map .vseq) ∧
    stripBase (normType "uint256[][]".data) = "uint256[]".data ∧
    stripBase (normType "uint256[]".data) = "uint256".data ∧
    (∀ (cs : Val → List Char) (a b : List Char),
      _postprocess_value cs "address[]".data (.vseq [.vstr a, .vstr b]) =
        some (.vseq [.vstr (cs (.vstr a)), .vstr (cs (.vstr b))])) := by
  refine ⟨pp_arr_seq, by decide, by decide, ?_⟩
  intro cs a b
  rw [pp_arr_seq _ _ _ (by decide)]
  rw [show stripBase (normType "address[]".data) = "address".data from by decide]
  rw [List.mapM_cons, List.mapM_cons, List.mapM_nil]
  rw [pp_elem_addr cs "address".data (.vstr a) (by decide) (by decide) (by decide),
    pp_elem_addr cs "address".data (.vstr b) (by decide) (by decide) (by decide)]
  rfl

/-- Claim C7, witness: the array branch applied at `"address[]"` with a
concrete two-element sequence value. -/
theorem c7_witness :
    _postprocess_value cs0 "address[]".data (.vseq [.vstr "p".data, .vstr "q".data]) =
      (([.vstr "p".data, .vstr "q".data] : List Val).mapM fun w =>
        _postprocess_value cs0 (stripBase (normType "address[]".data)) w).map .vseq :=
  c7_array_rendering.1 cs0 "address[]".data [.vstr "p".data, .vstr "q".data] (by decide)

/-- Claim C8.  On the elementary branch (type neither array nor tuple
shaped) the Post-Processor behaves exactly as the spec's description
`elemRenderSpec`: checksum exactly for `address`, `0x`-prefixed
lowercase hex exactly for `bytes`/`bytesN`, pass-through otherwise; in
particular `"bytes32"` over a 32-byte value gives `"0x"` plus 64
lowercase hex digits, and `"bytes"` over the empty byte value gives
`"0x"`. -/
theorem c8_elementary_rendering :
    (∀ (cs : Val → List Char) (t : List Char) (v : Val),
      ¬ (normType t).getLast? = some ']' →
      ¬ ((normType t).head? = some '(' ∧ (normType t).getLast? = some ')') →
      _postprocess_value cs t v = elemRenderSpec cs (normType t) v) ∧
    (∀ (cs : Val → List Char) (bs : List Nat), bs.length = 32 →
      ∃ hx : List Char, _postprocess_value cs "bytes32".data (.vbytes bs) =
        some (.vstr ('0' :: 'x' :: hx)) ∧ hx.length = 64 ∧
        ∀ c ∈ hx, c ∈ "0123456789abcdef".data) ∧
    (∀ cs : Val → List Char,
      _postprocess_value cs "bytes".data (.vbytes []) = some (.vstr "0x".data)) := by
  refine ⟨pp_elem_eq_spec, ?_, ?_⟩
  · intro cs bs h
    refine ⟨(bs.map byteHex).flatten, ?_, ?_, (hexOfBytes_parts bs).2⟩
    · rw [pp_elem_bytes cs "bytes32".data (.vbytes bs) (by decide) (by decide)
        (by decide) (by decide)]
      rfl
    · rw [(hexOfBytes_parts bs).1, h]
  · intro cs
    rw [pp_elem_bytes cs "bytes".data (.vbytes []) (by decide) (by decide)
      (by decide) (by decide)]
    rfl

/-- Claim C8, witness: the elementary branch at the pass-through type
`"uint256"` and the `bytes32` rendering at a concrete 32-byte value. -/
theorem c8_witness :
    _postprocess_value cs0 "uint256".data (.vint 7) =
      elemRenderSpec cs0 (normType "uint256".data) (.vint 7) ∧
    ∃ hx : List Char, _postprocess_value cs0 "bytes32".data
        (.vbytes (List.replicate 32 0)) = some (.vstr ('0' :: 'x' :: hx)) ∧
      hx.length = 64 ∧ ∀ c ∈ hx, c ∈ "0123456789abcdef".data :=
  ⟨c8_elementary_rendering.1 cs0 "uint256".data (.vint 7) (by decide) (by decide),
   c8_elementary_rendering.2.1 cs0 (List.replicate 32 0) (by decide)⟩

/-- Claim C9.  The Post-Processor's recursion terminates because each
recursive call is on a strictly shorter type string: the array branch
recurses on the base type obtained by stripping the rightmost bracket
group, and the tuple branch recurses on member type strings obtained by
splitting the interior — both strictly shorter than the (normalized)
type string.  These are exactly the decrease facts under which Lean
accepted `_postprocess_value` as total, with measure the length of the
normalized type string. -/
theorem c9_termination_measure :
    (∀ t : List Char, (normType t).getLast? = some ']' →
      (stripBase (normType t)).length < (normType t).length) ∧
    (∀ t : List Char, (normType t).head? = some '(' → (normType t).getLast? = some ')' →
      ∀ p ∈ _split_top_level_args (tupleInner (normType t)),
        p.length < (normType t).length) := by
  constructor
  · intro t h
    apply stripBase_length_lt
    intro hc; rw [hc] at h; simp at h
  · intro t hh hl p hp
    have h1 := split_mem_length hp
    have h4 := tupleInner_length (normType t)
    have h5 := two_le_length_of_head_getLast hh hl
    omega

/-- Claim C9, witness: the decrease facts at `"uint8[]"` and
`"(uint8,bool)"`. -/
theorem c9_witness :
    (stripBase (normType "uint8[]".data)).length < (normType "uint8[]".data).length ∧
    ∀ p ∈ _split_top_level_args (tupleInner (normType "(uint8,bool)".data)),
      p.length < (normType "(uint8,bool)".data).length :=
  ⟨c9_termination_measure.1 "uint8[]".data (by decide),
   c9_termination_measure.2 "(uint8,bool)".data (by decide) (by decide)⟩

/-- Claim C10, counterexample.  The claim states that every call-data
whose post-selector body is not a valid even-length hex string makes
the orchestrator raise, and that the structured `known=false` result is
returned only for valid hex bodies.  But `bytes.fromhex` skips ASCII
whitespace between byte pairs: for call-data `"deadbeefaa bb"` the body
`"aa bb"` is not an even-length hex string (first conjunct), yet the
orchestrator converts it to two bytes and returns the structured
`known=false` record instead of raising (second conjunct). -/
theorem c10_counterexample :
    isPlainHexString ((stripped0x "deadbeefaa bb".data).drop 8) = false ∧
    parse_tx_input abi0 cs0 "deadbeefaa bb".data f_selector_dict =
      some (.unknown "0xdeadbeef".data "Unknown function selector".data) :=
  ⟨rfl, rfl⟩

/-- Claim C10, amended.  The orchestrator converts the post-selector
body from hex to bytes before the registry lookup, where the conversion
(`bytes.fromhex`) accepts whitespace-separated pairs of hexadecimal
digits (`isHexBody`) rather than only plain even-length hex strings:
whenever the body is rejected by that conversion (and at least 8
characters remain after the selector), the call fails for every
registry — including registries missing the selector — and conversely
any structured result implies the body was accepted. -/
theorem c10_amended :
    (∀ (abi : List (List Char) → List Nat → Option (List Val)) (cs : Val → List Char)
        (cd : List Char) (sels : List (List Char × SelEntry)),
      ¬ (stripped0x cd).length < 8 →
      isHexBody ((stripped0x cd).drop 8) = false →
      parse_tx_input abi cs cd sels = none) ∧
    (∀ (abi : List (List Char) → List Nat → Option (List Val)) (cs : Val → List Char)
        (cd : List Char) (sels : List (List Char × SelEntry)) (r : TxRecord),
      parse_tx_input abi cs cd sels = some r →
      isHexBody ((stripped0x cd).drop 8) = true) :=
  ⟨parse_invalid_hex, parse_some_hexvalid⟩

/-- Claim C10, witness: `"deadbeefzz"` has a body `"zz"` rejected by the
conversion and an absent selector, and the orchestrator fails. -/
theorem c10_witness :
    parse_tx_input abi0 cs0 "deadbeefzz".data f_selector_dict = none :=
  c10_amended.1 abi0 cs0 "deadbeefzz".data f_selector_dict
    (by decide) (by decide)
